import Mathlib

/-!
Shallow embedding of the waveform-aggregation and pulse-fitting pipeline of
the MegMev/rawlib repository (TRestRawSignalEvent container and
TRestRawSignalFitEventProcess controller), together with theorems settling
the frozen claims about it.

Conventions of the embedding:
* C++ `Double_t` values are modelled as rationals (ℚ); IEEE division whose
  divisor is zero produces a non-finite value (NaN or ±Inf), modelled by
  `Option ℚ` with `none` standing for the non-finite outcomes.
* `TRestRawSignal` (the per-channel waveform class) is not among the given
  source files; only its callers are.  Its derived quantities (integral,
  baseline, baseline sigma, max-peak value/width, points-over-threshold
  count) are therefore abstract fields of the `TRestRawSignal` structure
  below, and the claims quantify over their values.
* Quantities whose C++ form is `TMath::Sqrt(q)` are represented by the
  radicand `q` (suffix `Sq`): the square root is strictly monotone on
  nonnegative reals, so equality/inequality of the radicands decides
  equality of the reported values, and `0/0` inside the root already makes
  the reported value NaN.
-/

/-- Modelled from the spec: the Waveform (TRestRawSignal) record.  The class
body is not among the provided sources, so the derived per-waveform
quantities used by the event container and the fitting process are abstract
fields: `data` is the per-bin sample accessor `GetData`, `integral` is
`GetIntegral()`, `baseLine`/`baseLineSigma` are the values cached by
`CalculateBaseLine`, `maxPeakValue`/`maxPeakWidth` are `GetMaxPeakValue()` /
`GetMaxPeakWidth()`, and `potCount` is `GetPointsOverThreshold().size()`
after `InitializePointsOverThreshold` with the configured parameters. -/
structure TRestRawSignal where
  id : ℤ
  data : ℕ → ℚ
  integral : ℚ
  baseLine : ℚ
  baseLineSigma : ℚ
  maxPeakValue : ℚ
  maxPeakWidth : ℤ
  potCount : ℕ

instance : Inhabited TRestRawSignal :=
  ⟨{ id := 0, data := fun _ => 0, integral := 0, baseLine := 0,
     baseLineSigma := 0, maxPeakValue := 0, maxPeakWidth := 0, potCount := 0 }⟩

/-- Event container: the ordered (insertion-order) collection `fSignal` of
raw signals, from TRestRawSignalEvent. -/
structure TRestRawSignalEvent where
  fSignal : List TRestRawSignal

/-- Number of signals in the event (GetNumberOfSignals). -/
def TRestRawSignalEvent.GetNumberOfSignals (e : TRestRawSignalEvent) : ℕ :=
  e.fSignal.length

/-- IEEE double division with a rational numerator and denominator: `none`
models the non-finite results (NaN for 0/0, ±Inf otherwise) that C++
produces when the denominator is zero. -/
def divQ (a b : ℚ) : Option ℚ :=
  if b = 0 then none else some (a / b)

/-- Index of the first signal with the given ID, or -1 when absent
(TRestRawSignalEvent::GetSignalIndex). -/
def TRestRawSignalEvent.GetSignalIndex (e : TRestRawSignalEvent) (signalID : ℤ) : ℤ :=
  match e.fSignal.findIdx? (fun w => w.id == signalID) with
  | some i => (i : ℤ)
  | none => -1

/-- Whether a signal with the given ID is present (signalIDExists, defined
in the class header in terms of GetSignalIndex). -/
def TRestRawSignalEvent.signalIDExists (e : TRestRawSignalEvent) (sid : ℤ) : Bool :=
  e.GetSignalIndex sid != -1

/-- TRestRawSignalEvent::AddSignal.  When the ID already exists the method
warns and returns without touching `fSignal`; otherwise it calls
`s.CalculateBaseLine(fBaseLineRange)` and `s.SetRange(fRange)` on the signal
and appends it.  Those two TRestRawSignal methods are outside the provided
sources, so their combined effect on the appended signal is the abstract
parameter `prep`. -/
def TRestRawSignalEvent.AddSignal (prep : TRestRawSignal → TRestRawSignal)
    (e : TRestRawSignalEvent) (s : TRestRawSignal) : TRestRawSignalEvent :=
  if e.signalIDExists s.id then e else ⟨e.fSignal ++ [prep s]⟩

/-- TRestRawSignalEvent::GetIntegral: the running sum `sum += GetIntegral()`
over all signals. -/
def TRestRawSignalEvent.GetIntegral (e : TRestRawSignalEvent) : ℚ :=
  e.fSignal.foldl (fun sum w => sum + w.integral) 0

/-- TRestRawSignalEvent::GetBaseLineAverage: sums the baselines and divides
by GetNumberOfSignals with no zero guard, so an empty event divides by
zero. -/
def TRestRawSignalEvent.GetBaseLineAverage (e : TRestRawSignalEvent) : Option ℚ :=
  divQ (e.fSignal.foldl (fun acc w => acc + w.baseLine) 0) (e.GetNumberOfSignals : ℚ)

/-- TRestRawSignalEvent::GetBaseLineSigmaAverage: sums the baseline sigmas
and divides by GetNumberOfSignals with no zero guard. -/
def TRestRawSignalEvent.GetBaseLineSigmaAverage (e : TRestRawSignalEvent) : Option ℚ :=
  divQ (e.fSignal.foldl (fun acc w => acc + w.baseLineSigma) 0) (e.GetNumberOfSignals : ℚ)

/-- TRestRawSignalEvent::GetLowestWidth: `low` starts at 10000000 and is
lowered to the max-peak width of every signal whose max-peak value exceeds
the amplitude filter; the final `low` is returned unconditionally. -/
def TRestRawSignalEvent.GetLowestWidth (e : TRestRawSignalEvent)
    (minPeakAmplitude : ℚ) : ℤ :=
  e.fSignal.foldl
    (fun low w =>
      if minPeakAmplitude < w.maxPeakValue then
        if w.maxPeakWidth < low then w.maxPeakWidth else low
      else low)
    10000000

/-- Accumulation loop of TRestRawSignalEvent::GetAverageWidth: the running
pair `(avg, n)` over the signals passing the amplitude filter. -/
def TRestRawSignalEvent.averageWidthFold (e : TRestRawSignalEvent)
    (minPeakAmplitude : ℚ) : ℚ × ℕ :=
  e.fSignal.foldl
    (fun (st : ℚ × ℕ) w =>
      if minPeakAmplitude < w.maxPeakValue then
        (st.1 + (w.maxPeakWidth : ℚ), st.2 + 1)
      else st)
    ((0 : ℚ), (0 : ℕ))

/-- TRestRawSignalEvent::GetAverageWidth: accumulates `(avg, n)` over the
signals passing the amplitude filter and returns 0 when `n` is zero,
`avg / n` otherwise. -/
def TRestRawSignalEvent.GetAverageWidth (e : TRestRawSignalEvent)
    (minPeakAmplitude : ℚ) : ℚ :=
  if (e.averageWidthFold minPeakAmplitude).2 = 0 then 0
  else (e.averageWidthFold minPeakAmplitude).1 /
    ((e.averageWidthFold minPeakAmplitude).2 : ℚ)

/-- Widths of the signals passing the amplitude filter, in event order
(the `widths` vector built by TRestRawSignalEvent::GetLowAverageWidth). -/
def TRestRawSignalEvent.qualifyingWidths (e : TRestRawSignalEvent)
    (minPeakAmplitude : ℚ) : List ℚ :=
  (e.fSignal.filter (fun w => decide (minPeakAmplitude < w.maxPeakValue))).map
    (fun w => (w.maxPeakWidth : ℚ))

/-- TRestRawSignalEvent::GetLowAverageWidth: collects the qualifying widths,
returns 0 if none, otherwise sorts ascending (std::sort, modelled by
List.insertionSort which produces the same ascending order), sums the first
`nMax = min(nSignals, widths.size())` of them and divides by the requested
`nSignals` (division by zero when `nSignals = 0` and widths exist yields a
non-finite value, `none`). -/
def TRestRawSignalEvent.GetLowAverageWidth (e : TRestRawSignalEvent)
    (nSignals : ℕ) (minPeakAmplitude : ℚ) : Option ℚ :=
  let widths := e.qualifyingWidths minPeakAmplitude
  if widths.length = 0 then some 0
  else
    let sorted := List.insertionSort (· ≤ ·) widths
    let nMax := if widths.length < nSignals then widths.length else nSignals
    divQ ((sorted.take nMax).sum) (nSignals : ℚ)

/-- Restatement of claim C10 in its own words: the sum of the
min(nSignals, q) smallest widths among the q qualifying waveforms, divided
by the requested count nSignals, and 0 when q is zero. -/
def lowAverageWidthClaim (e : TRestRawSignalEvent) (nSignals : ℕ)
    (minPeakAmplitude : ℚ) : Option ℚ :=
  let widths := e.qualifyingWidths minPeakAmplitude
  if widths.length = 0 then some 0
  else
    divQ (((List.insertionSort (· ≤ ·) widths).take (min nSignals widths.length)).sum)
      (nSignals : ℚ)

-- Helper lemmas -------------------------------------------------------------

/-- Folding addition of a projected field equals the accumulator plus the sum
of the projections. -/
theorem foldl_add_proj (f : TRestRawSignal → ℚ) :
    ∀ (l : List TRestRawSignal) (a : ℚ),
      l.foldl (fun s w => s + f w) a = a + (l.map f).sum := by
  intro l
  induction l with
  | nil => intro a; simp
  | cons x xs ih =>
    intro a
    simp [List.foldl_cons, ih, add_assoc]

/-- A fold whose step is the identity on every list element stays at its
initial accumulator. -/
theorem foldl_id_of_skip {β : Type} (g : β → TRestRawSignal → β)
    (P : TRestRawSignal → Prop) (hg : ∀ b w, ¬ P w → g b w = b) :
    ∀ (l : List TRestRawSignal) (b : β), (∀ w ∈ l, ¬ P w) → l.foldl g b = b := by
  intro l
  induction l with
  | nil => intro b _; rfl
  | cons x xs ih =>
    intro b h
    have hx : ¬ P x := h x (List.mem_cons_self x xs)
    simp only [List.foldl_cons, hg b x hx]
    exact ih b (fun w hw => h w (List.mem_cons_of_mem x hw))

-- C2 ------------------------------------------------------------------------

/-- Claim C2: for an Event with zero Waveforms, GetBaseLineAverage and
GetBaseLineSigmaAverage are claimed to return the neutral value 0 and never
a non-finite value.  The code has no zero-count guard: both divide their
(empty, hence zero) sum by the signal count 0, which in IEEE arithmetic is
NaN — modelled here as `none`, which is not `some 0`.  This contradicts the
claim and the explicit design rule that division-by-count aggregates guard
against zero waveforms, a rule the sibling getters GetRiseSlope, GetRiseTime
and GetAverageWidth in the same source file do implement. -/
theorem baseline_averages_empty_nonfinite :
    TRestRawSignalEvent.GetBaseLineAverage ⟨[]⟩ = none ∧
      TRestRawSignalEvent.GetBaseLineSigmaAverage ⟨[]⟩ = none ∧
      (none : Option ℚ) ≠ some 0 := by
  refine ⟨rfl, rfl, by decide⟩

-- C3 ------------------------------------------------------------------------

/-- Concrete event for the C3 counterexample: one waveform whose max-peak
value 1 does not exceed the amplitude filter 2. -/
def evC3 : TRestRawSignalEvent :=
  ⟨[{ id := 1, data := fun _ => 0, integral := 0, baseLine := 0,
      baseLineSigma := 0, maxPeakValue := 1, maxPeakWidth := 8, potCount := 0 }]⟩

/-- Claim C3 counterexample: with an amplitude filter excluding every
waveform, GetLowestWidth does not return 0 — it returns its sentinel
initial value 10000000. -/
theorem getLowestWidth_excluded_not_zero :
    (∀ w ∈ evC3.fSignal, ¬ (2 : ℚ) < w.maxPeakValue) ∧
      evC3.GetLowestWidth 2 ≠ 0 := by
  constructor
  · decide
  · decide

/-- Claim C3 as amended: when no Waveform's max-peak value exceeds the
amplitude filter, GetAverageWidth returns 0, but GetLowestWidth returns its
sentinel initial value 10000000 rather than 0. -/
theorem width_getters_no_qualifier (e : TRestRawSignalEvent) (amp : ℚ)
    (h : ∀ w ∈ e.fSignal, ¬ amp < w.maxPeakValue) :
    e.GetLowestWidth amp = 10000000 ∧ e.GetAverageWidth amp = 0 := by
  constructor
  · unfold TRestRawSignalEvent.GetLowestWidth
    exact foldl_id_of_skip _ (fun w => amp < w.maxPeakValue)
      (fun b w hw => by simp [hw]) e.fSignal 10000000 h
  · have hfold : e.averageWidthFold amp = ((0 : ℚ), (0 : ℕ)) :=
      foldl_id_of_skip _ (fun w => amp < w.maxPeakValue)
        (fun b w hw => by simp [hw]) e.fSignal ((0 : ℚ), (0 : ℕ)) h
    unfold TRestRawSignalEvent.GetAverageWidth
    rw [hfold]
    norm_num

/-- Witness for the amended C3 theorem at the concrete event evC3. -/
theorem width_getters_no_qualifier_witness :
    (∀ w ∈ evC3.fSignal, ¬ (2 : ℚ) < w.maxPeakValue) ∧
      (evC3.GetLowestWidth 2 = 10000000 ∧ evC3.GetAverageWidth 2 = 0) := by
  have h : ∀ w ∈ evC3.fSignal, ¬ (2 : ℚ) < w.maxPeakValue := by decide
  exact ⟨h, width_getters_no_qualifier evC3 2 h⟩

-- C6 ------------------------------------------------------------------------

/-- Claim C6: adding a Waveform whose ID is already present leaves the
Event unchanged (duplicate add is a no-op with a warning), for any baseline
preparation the non-duplicate path would have applied. -/
theorem addSignal_duplicate_noop (prep : TRestRawSignal → TRestRawSignal)
    (e : TRestRawSignalEvent) (s : TRestRawSignal)
    (h : e.signalIDExists s.id = true) :
    e.AddSignal prep s = e := by
  unfold TRestRawSignalEvent.AddSignal
  simp [h]

/-- Concrete signal for the C6 witness. -/
def wC6 : TRestRawSignal :=
  { id := 7, data := fun _ => 0, integral := 3, baseLine := 0,
    baseLineSigma := 0, maxPeakValue := 0, maxPeakWidth := 0, potCount := 0 }

/-- Concrete event for the C6 witness, already containing ID 7. -/
def evC6 : TRestRawSignalEvent := ⟨[wC6]⟩

/-- Witness for C6: re-adding the signal with the already-present ID 7 is a
no-op. -/
theorem addSignal_duplicate_noop_witness :
    evC6.signalIDExists wC6.id = true ∧ evC6.AddSignal id wC6 = evC6 := by
  have h : evC6.signalIDExists wC6.id = true := by decide
  exact ⟨h, addSignal_duplicate_noop id evC6 wC6 h⟩

-- C7 ------------------------------------------------------------------------

/-- Claim C7: the event-level GetIntegral equals the sum over all waveforms
of the individual waveform integrals. -/
theorem getIntegral_eq_sum (e : TRestRawSignalEvent) :
    e.GetIntegral = (e.fSignal.map TRestRawSignal.integral).sum := by
  unfold TRestRawSignalEvent.GetIntegral
  rw [foldl_add_proj TRestRawSignal.integral e.fSignal 0, zero_add]

-- C10 -----------------------------------------------------------------------

/-- Claim C10: GetLowAverageWidth returns the sum of the min(nSignals, q)
smallest qualifying widths divided by the requested count nSignals (not by
the number of widths actually summed), and 0 when no waveform qualifies. -/
theorem getLowAverageWidth_spec_eq (e : TRestRawSignalEvent) (nSignals : ℕ)
    (minPeakAmplitude : ℚ) :
    e.GetLowAverageWidth nSignals minPeakAmplitude =
      lowAverageWidthClaim e nSignals minPeakAmplitude := by
  unfold TRestRawSignalEvent.GetLowAverageWidth lowAverageWidthClaim
  have hmin : ∀ a b : ℕ, (if a < b then a else b) = min b a := by
    intro a b
    rcases Nat.lt_or_ge a b with h | h
    · rw [if_pos h, Nat.min_eq_right (Nat.le_of_lt h)]
    · rw [if_neg (Nat.not_lt.mpr h), Nat.min_eq_left h]
  simp only [hmin]

-- C1 ------------------------------------------------------------------------

/-- Truncation of a rational toward zero, modelling the C++ conversion of a
Double_t to Int_t that GetMaxSignal applies to each compared integral. -/
def ratTrunc (q : ℚ) : ℤ :=
  q.num.tdiv (q.den : ℤ)

/-- Outcome of TRestRawSignalEvent::GetMaxSignal: the nullptr result for an
empty event, a pointer to the signal at a definite index, or the
indeterminate pointer produced when the local index variable sId is read
without ever having been assigned. -/
inductive MaxSignalResult where
  | null : MaxSignalResult
  | signalAt : ℕ → MaxSignalResult
  | indeterminate : MaxSignalResult
deriving DecidableEq

/-- TRestRawSignalEvent::GetMaxSignal: returns nullptr for an empty event;
otherwise `max` starts at the (Double_t) integral of signal 0 while the
index `sId` is declared without an initializer, and each iteration compares
`max` against the signal's integral truncated to Int_t, updating `max` and
`sId` only on a strict increase.  The state is `(max, sId)` with
`sId : Option ℕ` starting at `none`; a final `none` means the function
dereferences an uninitialized index. -/
def TRestRawSignalEvent.GetMaxSignal (e : TRestRawSignalEvent) : MaxSignalResult :=
  match e.fSignal with
  | [] => .null
  | w0 :: _ =>
    match ((List.range e.fSignal.length).foldl
        (fun (st : ℚ × Option ℕ) i =>
          let integ : ℤ := ratTrunc ((e.fSignal.getD i default).integral)
          if st.1 < (integ : ℚ) then ((integ : ℚ), some i) else st)
        (w0.integral, none)).2 with
    | some i => .signalAt i
    | none => .indeterminate

/-- Concrete event for the C1 failing input: a single waveform of integral
5, which is trivially the maximal (and first maximal) waveform. -/
def evC1 : TRestRawSignalEvent :=
  ⟨[{ id := 4, data := fun _ => 0, integral := 5, baseLine := 0,
      baseLineSigma := 0, maxPeakValue := 0, maxPeakWidth := 0, potCount := 0 }]⟩

/-- Claim C1 evaluated at the failing input: the claim says GetMaxSignal
must return the first waveform of maximal integral (index 0 here), but the
code never assigns sId when no strict increase over signal 0's integral
occurs, so it reads the uninitialized index and returns an indeterminate
pointer. -/
theorem getMaxSignal_first_max_indeterminate :
    evC1.GetMaxSignal = .indeterminate ∧
      evC1.GetMaxSignal ≠ .signalAt 0 := by
  constructor
  · rfl
  · decide

-- C4 ------------------------------------------------------------------------

/-- Fit-range margins below and above the max-peak bin (the local variables
MinBinRange = 45 and MaxBinRange = 70 of ProcessEvent). -/
def MinBinRange : ℤ := 45

/-- Upper fit-range margin (MaxBinRange = 70). -/
def MaxBinRange : ℤ := 70

/-- Sum of squared residuals `(observed - model)^2` over the half-open bin
window `[lo, hi)`, where `r j` is the residual `h->GetBinContent(j) -
fit->Eval(j)` at bin `j`. -/
def residualSumSq (r : ℤ → ℚ) (lo hi : ℤ) : ℚ :=
  ((List.range (hi - lo).toNat).map (fun (i : ℕ) => (r (lo + (i : ℤ)))^2)).sum

/-- Squared reported residual RMS of the convolution branches (both the
per-signal convolution fits and the addAllPulses fit): the residual loop
runs over `[MaxPeakBin - MinBinRange, MaxPeakBin + MaxBinRange)` and the sum
is divided by `MinBinRange + MaxBinRange`. -/
def convSigmaSq (r : ℤ → ℚ) (maxPeakBin : ℤ) : ℚ :=
  residualSumSq r (maxPeakBin - MinBinRange) (maxPeakBin + MaxBinRange) /
    ((MinBinRange + MaxBinRange : ℤ) : ℚ)

/-- Squared reported residual RMS of the AGET branch: although the fit is
restricted to `[MaxPeakBin - MinBinRange, MaxPeakBin + MaxBinRange)`, the
residual loop runs over `[MaxPeakBin - 145, MaxPeakBin + 165)` and the sum
is divided by `145 + 165`. -/
def agetSigmaSq (r : ℤ → ℚ) (maxPeakBin : ℤ) : ℚ :=
  residualSumSq r (maxPeakBin - 145) (maxPeakBin + 165) / ((145 + 165 : ℤ) : ℚ)

/-- Restatement of claim C4 in the spec's words: the squared RMS of
`observed - model` over the bin window `[peakBin - lowMargin, peakBin +
highMargin)`, normalized by that window's width. -/
def windowRmsSq (r : ℤ → ℚ) (maxPeakBin lowMargin highMargin : ℤ) : ℚ :=
  residualSumSq r (maxPeakBin - lowMargin) (maxPeakBin + highMargin) /
    ((lowMargin + highMargin : ℤ) : ℚ)

/-- Concrete residual function for the C4 counterexample: a unit residual at
bin 55 only, which lies outside the fit window of a peak at bin 200 but
inside the AGET residual window. -/
def rSpike : ℤ → ℚ := fun j => if j = 55 then 1 else 0

/-- A residual sum of squares vanishes when the residual vanishes on the
whole window. -/
theorem residualSumSq_eq_zero (r : ℤ → ℚ) (lo hi : ℤ)
    (h : ∀ i ∈ List.range (hi - lo).toNat, r (lo + (i : ℤ)) = 0) :
    residualSumSq r lo hi = 0 := by
  unfold residualSumSq
  apply List.sum_eq_zero
  intro x hx
  obtain ⟨i, hi', rfl⟩ := List.mem_map.mp hx
  rw [h i hi']
  norm_num

/-- Claim C4 counterexample: in AGET mode the reported residual RMS is not
the RMS over the fit window `[peakBin - 45, peakBin + 70)`: for a peak at
bin 200 and the residual rSpike, the fit-window RMS is 0 while the code
reports a nonzero value because its residual loop covers the wider window
`[peakBin - 145, peakBin + 165)`. -/
theorem agetSigma_window_mismatch :
    agetSigmaSq rSpike 200 ≠ windowRmsSq rSpike 200 MinBinRange MaxBinRange := by
  have h45 : MinBinRange = 45 := rfl
  have h70 : MaxBinRange = 70 := rfl
  rw [h45, h70]
  have hwin : windowRmsSq rSpike 200 45 70 = 0 := by
    unfold windowRmsSq
    rw [residualSumSq_eq_zero]
    · exact zero_div _
    · intro i hi
      have hi' : i < 115 := by
        have ht : ((200 + (70 : ℤ) - (200 - 45))).toNat = 115 := by decide
        rw [ht] at hi
        exact List.mem_range.mp hi
      unfold rSpike
      rw [if_neg]
      omega
  have hpos : (0 : ℚ) < residualSumSq rSpike (200 - 145) (200 + 165) := by
    have hmem : ((rSpike (200 - 145 + ((0 : ℕ) : ℤ)))^2 : ℚ) ∈
        (List.range ((200 + 165 - (200 - 145) : ℤ)).toNat).map
          (fun (i : ℕ) => (rSpike (200 - 145 + (i : ℤ)))^2) := by
      apply List.mem_map_of_mem
      apply List.mem_range.mpr
      decide
    have hone : ((rSpike (200 - 145 + ((0 : ℕ) : ℤ)))^2 : ℚ) = 1 := by
      norm_num [rSpike]
    have hle : ((rSpike (200 - 145 + ((0 : ℕ) : ℤ)))^2 : ℚ) ≤
        residualSumSq rSpike (200 - 145) (200 + 165) := by
      apply List.single_le_sum _ _ hmem
      intro x hx
      obtain ⟨i, _, rfl⟩ := List.mem_map.mp hx
      positivity
    calc (0 : ℚ) < 1 := one_pos
    _ = (rSpike (200 - 145 + ((0 : ℕ) : ℤ)))^2 := hone.symm
    _ ≤ residualSumSq rSpike (200 - 145) (200 + 165) := hle
  rw [hwin]
  unfold agetSigmaSq
  intro hcontra
  have hgt : (0 : ℚ) < residualSumSq rSpike (200 - 145) (200 + 165) / ((145 + 165 : ℤ) : ℚ) := by
    apply div_pos hpos
    norm_num
  rw [hcontra] at hgt
  exact lt_irrefl 0 hgt

/-- Claim C4 as amended: in the convolution branches (per-signal convolution
fits and the addAllPulses fit) the reported residual RMS is taken over
exactly the fit window `[peakBin - 45, peakBin + 70)` normalized by its
width 115, but in AGET mode the fit window is still `[peakBin - 45,
peakBin + 70)` while the reported residual RMS is computed over the wider
window `[peakBin - 145, peakBin + 165)` normalized by 310. -/
theorem sigma_windows_amended (r : ℤ → ℚ) (maxPeakBin : ℤ) :
    convSigmaSq r maxPeakBin = windowRmsSq r maxPeakBin MinBinRange MaxBinRange ∧
      agetSigmaSq r maxPeakBin = windowRmsSq r maxPeakBin 145 165 := by
  exact ⟨rfl, rfl⟩

-- Mode B (good-signal selection) -------------------------------------------

/-- Per-signal best-fit outputs read back from the ROOT fit object after one
convolution fit (GetParameter of Amplitude, ShapingTime, StartPosition,
VarianceGauss, plus the derived RatioSigmaMaxPeak value); the fit engine is
external ROOT numerics, so a fit result is an abstract record and the
theorems quantify over the function producing it. -/
structure FitParams where
  amplitude : ℚ
  shapingtime : ℚ
  startPosition : ℚ
  variancegauss : ℚ
  ratioSigmaMaxPeak : ℚ

/-- Assignment `m[k] = v` on a std::map modelled as a partial function. -/
def mapSet (m : ℤ → Option ℚ) (k : ℤ) (v : ℚ) : ℤ → Option ℚ :=
  fun q => if q = k then some v else m q

/-- The per-signal loop of the good-signal-selection branch, restricted to
one of the five observable maps: starting from the empty map, every signal
writes `val w` at its ID (the source sets all five maps inside a single
if/else on the points-over-threshold test; the per-map value function below
carries that same test). -/
def buildMap (val : TRestRawSignal → ℚ) (l : List TRestRawSignal) : ℤ → Option ℚ :=
  l.foldl (fun m w => mapSet m w.id (val w)) (fun _ => none)

/-- Value a signal contributes to a Mode B map: the fit-derived value when
`GetPointsOverThreshold().size() >= 2`, the sentinel -1 otherwise. -/
def modeBVal (f : TRestRawSignal → ℚ) (w : TRestRawSignal) : ℚ :=
  if 2 ≤ w.potCount then f w else -1

/-- The five ID-keyed observable maps the good-signal-selection branch
publishes. -/
structure ModeBMaps where
  amplitudeFit : ℤ → Option ℚ
  shapingtimeFit : ℤ → Option ℚ
  StartPositionFit : ℤ → Option ℚ
  variancegaussFit : ℤ → Option ℚ
  ratiosigmaamplitudeFit : ℤ → Option ℚ

/-- The Mode B per-signal loop producing the five maps, parameterized by the
external fit engine `fitOf`. -/
def modeBMaps (fitOf : TRestRawSignal → FitParams) (e : TRestRawSignalEvent) : ModeBMaps :=
  { amplitudeFit := buildMap (modeBVal (fun w => (fitOf w).amplitude)) e.fSignal,
    shapingtimeFit := buildMap (modeBVal (fun w => (fitOf w).shapingtime)) e.fSignal,
    StartPositionFit := buildMap (modeBVal (fun w => (fitOf w).startPosition)) e.fSignal,
    variancegaussFit := buildMap (modeBVal (fun w => (fitOf w).variancegauss)) e.fSignal,
    ratiosigmaamplitudeFit := buildMap (modeBVal (fun w => (fitOf w).ratioSigmaMaxPeak)) e.fSignal }

/-- End of the convolution branch: `if (ApplyCut()) return NULL; return
fRawSignalEvent;` — the cut decision is the external collaborator `cut`. -/
def modeBReturn (cut : Bool) (e : TRestRawSignalEvent) : Option TRestRawSignalEvent :=
  if cut then none else some e

/-- A key not among the remaining IDs is untouched by the map-building
fold. -/
theorem buildMapFold_notMem (val : TRestRawSignal → ℚ) :
    ∀ (l : List TRestRawSignal) (m : ℤ → Option ℚ) (k : ℤ),
      k ∉ l.map TRestRawSignal.id →
      l.foldl (fun m w => mapSet m w.id (val w)) m k = m k := by
  intro l
  induction l with
  | nil => intro m k _; rfl
  | cons x xs ih =>
    intro m k hk
    rw [List.map_cons] at hk
    have hk1 : k ≠ x.id := fun h => hk (h ▸ List.mem_cons_self _ _)
    have hk2 : k ∉ xs.map TRestRawSignal.id := fun h => hk (List.mem_cons_of_mem _ h)
    simp only [List.foldl_cons]
    rw [ih (mapSet m x.id (val x)) k hk2]
    unfold mapSet
    rw [if_neg hk1]

/-- A key already bound to some value stays bound across the map-building
fold. -/
theorem buildMapFold_isSome (val : TRestRawSignal → ℚ) :
    ∀ (l : List TRestRawSignal) (m : ℤ → Option ℚ) (k : ℤ),
      (m k).isSome →
      ((l.foldl (fun m w => mapSet m w.id (val w)) m) k).isSome := by
  intro l
  induction l with
  | nil => intro m k h; exact h
  | cons x xs ih =>
    intro m k h
    simp only [List.foldl_cons]
    apply ih
    unfold mapSet
    by_cases hk : k = x.id
    · rw [if_pos hk]; rfl
    · rw [if_neg hk]; exact h

/-- Every processed signal's ID is bound after the map-building fold, for
any initial map. -/
theorem buildMapFold_isSome_of_mem (val : TRestRawSignal → ℚ) :
    ∀ (l : List TRestRawSignal) (m : ℤ → Option ℚ) (w : TRestRawSignal),
      w ∈ l →
      ((l.foldl (fun m w => mapSet m w.id (val w)) m) w.id).isSome := by
  intro l
  induction l with
  | nil => intro m w hw; cases hw
  | cons x xs ih =>
    intro m w hw
    simp only [List.foldl_cons]
    rcases List.mem_cons.mp hw with h | h
    · subst h
      apply buildMapFold_isSome
      unfold mapSet
      rw [if_pos rfl]
      rfl
    · exact ih _ w h

/-- Every processed signal's ID is bound in the built map. -/
theorem buildMap_isSome_of_mem (val : TRestRawSignal → ℚ)
    (l : List TRestRawSignal) (w : TRestRawSignal) (hw : w ∈ l) :
    ((buildMap val l) w.id).isSome :=
  buildMapFold_isSome_of_mem val l _ w hw

/-- When the signal IDs are pairwise distinct, the built map binds each
signal's ID to exactly that signal's value. -/
theorem buildMapFold_eq_of_nodup (val : TRestRawSignal → ℚ) :
    ∀ (l : List TRestRawSignal) (m : ℤ → Option ℚ) (w : TRestRawSignal),
      (l.map TRestRawSignal.id).Nodup → w ∈ l →
      (l.foldl (fun m w => mapSet m w.id (val w)) m) w.id = some (val w) := by
  intro l
  induction l with
  | nil => intro m w _ hw; cases hw
  | cons x xs ih =>
    intro m w hnd hw
    rw [List.map_cons, List.nodup_cons] at hnd
    simp only [List.foldl_cons]
    rcases List.mem_cons.mp hw with h | h
    · subst h
      rw [buildMapFold_notMem val xs _ w.id hnd.1]
      unfold mapSet
      rw [if_pos rfl]
    · exact ih _ w hnd.2 h

/-- Same statement for buildMap itself. -/
theorem buildMap_eq_of_nodup (val : TRestRawSignal → ℚ)
    (l : List TRestRawSignal) (w : TRestRawSignal)
    (hnd : (l.map TRestRawSignal.id).Nodup) (hw : w ∈ l) :
    (buildMap val l) w.id = some (val w) :=
  buildMapFold_eq_of_nodup val l _ w hnd hw

-- C5 ------------------------------------------------------------------------

/-- Claim C5: in good-signal-selection mode, a waveform with fewer than 2
points over threshold gets the sentinel -1 in every per-signal observable
map at its ID; every waveform ID, qualified or not, has an entry in every
map; and the event is still returned subject only to the external cut. -/
theorem modeB_sentinels (fitOf : TRestRawSignal → FitParams)
    (e : TRestRawSignalEvent) (cut : Bool) (w : TRestRawSignal)
    (hnd : (e.fSignal.map TRestRawSignal.id).Nodup)
    (hw : w ∈ e.fSignal) (hpot : w.potCount < 2) :
    ((modeBMaps fitOf e).amplitudeFit w.id = some (-1) ∧
     (modeBMaps fitOf e).shapingtimeFit w.id = some (-1) ∧
     (modeBMaps fitOf e).StartPositionFit w.id = some (-1) ∧
     (modeBMaps fitOf e).variancegaussFit w.id = some (-1) ∧
     (modeBMaps fitOf e).ratiosigmaamplitudeFit w.id = some (-1)) ∧
    (∀ u ∈ e.fSignal,
      ((modeBMaps fitOf e).amplitudeFit u.id).isSome ∧
      ((modeBMaps fitOf e).shapingtimeFit u.id).isSome ∧
      ((modeBMaps fitOf e).StartPositionFit u.id).isSome ∧
      ((modeBMaps fitOf e).variancegaussFit u.id).isSome ∧
      ((modeBMaps fitOf e).ratiosigmaamplitudeFit u.id).isSome) ∧
    modeBReturn cut e = (if cut then none else some e) := by
  have hnot : ¬ 2 ≤ w.potCount := Nat.not_le.mpr hpot
  have hval : ∀ f : TRestRawSignal → ℚ, modeBVal f w = -1 := by
    intro f
    unfold modeBVal
    rw [if_neg hnot]
  have hsent : ∀ f : TRestRawSignal → ℚ,
      (buildMap (modeBVal f) e.fSignal) w.id = some (-1) := by
    intro f
    rw [buildMap_eq_of_nodup (modeBVal f) e.fSignal w hnd hw, hval f]
  refine ⟨?_, ?_, rfl⟩
  · exact ⟨hsent _, hsent _, hsent _, hsent _, hsent _⟩
  · intro u hu
    exact ⟨buildMap_isSome_of_mem _ e.fSignal u hu,
      buildMap_isSome_of_mem _ e.fSignal u hu,
      buildMap_isSome_of_mem _ e.fSignal u hu,
      buildMap_isSome_of_mem _ e.fSignal u hu,
      buildMap_isSome_of_mem _ e.fSignal u hu⟩

/-- Concrete unqualified waveform for the C5 and C9 witnesses: zero points
over threshold. -/
def wC5 : TRestRawSignal :=
  { id := 3, data := fun _ => 0, integral := 0, baseLine := 0,
    baseLineSigma := 0, maxPeakValue := 0, maxPeakWidth := 0, potCount := 0 }

/-- Concrete one-signal event for the C5 and C9 witnesses. -/
def evC5 : TRestRawSignalEvent := ⟨[wC5]⟩

/-- Constant fit engine used by the C5 witness. -/
def fitOfC5 : TRestRawSignal → FitParams :=
  fun _ => { amplitude := 0, shapingtime := 0, startPosition := 0,
             variancegauss := 0, ratioSigmaMaxPeak := 0 }

/-- Witness for C5 at the concrete one-signal event whose only waveform has
zero points over threshold. -/
theorem modeB_sentinels_witness :
    ((evC5.fSignal.map TRestRawSignal.id).Nodup ∧ wC5 ∈ evC5.fSignal ∧
        wC5.potCount < 2) ∧
      (((modeBMaps fitOfC5 evC5).amplitudeFit wC5.id = some (-1) ∧
        (modeBMaps fitOfC5 evC5).shapingtimeFit wC5.id = some (-1) ∧
        (modeBMaps fitOfC5 evC5).StartPositionFit wC5.id = some (-1) ∧
        (modeBMaps fitOfC5 evC5).variancegaussFit wC5.id = some (-1) ∧
        (modeBMaps fitOfC5 evC5).ratiosigmaamplitudeFit wC5.id = some (-1)) ∧
      (∀ u ∈ evC5.fSignal,
        ((modeBMaps fitOfC5 evC5).amplitudeFit u.id).isSome ∧
        ((modeBMaps fitOfC5 evC5).shapingtimeFit u.id).isSome ∧
        ((modeBMaps fitOfC5 evC5).StartPositionFit u.id).isSome ∧
        ((modeBMaps fitOfC5 evC5).variancegaussFit u.id).isSome ∧
        ((modeBMaps fitOfC5 evC5).ratiosigmaamplitudeFit u.id).isSome) ∧
      modeBReturn false evC5 = (if false then none else some evC5)) := by
  have h1 : (evC5.fSignal.map TRestRawSignal.id).Nodup := by
    simp [evC5, wC5]
  have h2 : wC5 ∈ evC5.fSignal := List.mem_singleton.mpr rfl
  have h3 : wC5.potCount < 2 := by decide
  exact ⟨⟨h1, h2, h3⟩, modeB_sentinels fitOfC5 evC5 false wC5 h1 h2 h3⟩

-- C9 ------------------------------------------------------------------------

/-- Signals passing the good-signal test of the selection branch
(GetPointsOverThreshold().size() >= 2), in event order. -/
def goodSignals (e : TRestRawSignalEvent) : List TRestRawSignal :=
  e.fSignal.filter (fun w => decide (2 ≤ w.potCount))

/-- The goodSig counter of ProcessEvent: incremented once per qualifying
signal. -/
def goodSig (e : TRestRawSignalEvent) : ℕ :=
  (goodSignals e).length

/-- The Sigma array entry of signal w in the selection branch: the computed
residual RMS (abstracted as `sigmaOf w`, produced by the external fit) for a
qualifying signal, and the array's zero initializer otherwise. -/
def sigmaArr (sigmaOf : TRestRawSignal → ℚ) (w : TRestRawSignal) : ℚ :=
  if 2 ≤ w.potCount then sigmaOf w else 0

/-- FitSigmaMean of the selection branch: the accumulated Sigma values of
the qualifying signals divided by goodSig, with no guard against
goodSig = 0. -/
def fitSigmaMeanB (sigmaOf : TRestRawSignal → ℚ) (e : TRestRawSignalEvent) : Option ℚ :=
  divQ ((goodSignals e).map sigmaOf).sum ((goodSig e : ℚ))

/-- FitChiSquareMean of the selection branch: accumulated chi-squares of the
qualifying signals divided by goodSig, unguarded. -/
def fitChiSquareMeanB (chiOf : TRestRawSignal → ℚ) (e : TRestRawSignalEvent) : Option ℚ :=
  divQ ((goodSignals e).map chiOf).sum ((goodSig e : ℚ))

/-- FitRatioSigmaMaxPeakMean of the selection branch: accumulated
RatioSigmaMaxPeak values of the qualifying signals divided by goodSig,
unguarded. -/
def fitRatioSigmaMaxPeakMeanB (ratioOf : TRestRawSignal → ℚ)
    (e : TRestRawSignalEvent) : Option ℚ :=
  divQ ((goodSignals e).map ratioOf).sum ((goodSig e : ℚ))

/-- Squared FitSigmaStdDev of the selection branch: the loop adds
`(Sigma[k] - SigmaMean)^2` for every signal whose Sigma entry is nonzero,
and the total is divided by goodSig, unguarded.  When goodSig is positive
the mean is finite and `getD` recovers it; when goodSig is zero every Sigma
entry is still its zero initializer, the loop adds nothing, and the NaN
mean never enters a term — the division by zero alone makes the result
non-finite. -/
def fitSigmaStdDevSqB (sigmaOf : TRestRawSignal → ℚ) (e : TRestRawSignalEvent) : Option ℚ :=
  divQ
    (((e.fSignal.map (sigmaArr sigmaOf)).filter (fun x => decide (x ≠ 0))).map
      (fun x => (x - (fitSigmaMeanB sigmaOf e).getD 0)^2)).sum
    ((goodSig e : ℚ))

/-- Claim C9: in good-signal-selection mode, when no waveform has at least 2
points over threshold, goodSig is 0, and FitSigmaMean, FitSigmaStdDev,
FitChiSquareMean and FitRatioSigmaMaxPeakMean all divide by that zero count
(the guard is absent), so the published values are non-finite rather than
defined neutral numbers. -/
theorem modeB_zero_good_nonfinite (sigmaOf chiOf ratioOf : TRestRawSignal → ℚ)
    (e : TRestRawSignalEvent) (h : ∀ w ∈ e.fSignal, w.potCount < 2) :
    goodSig e = 0 ∧
      fitSigmaMeanB sigmaOf e = none ∧
      fitSigmaStdDevSqB sigmaOf e = none ∧
      fitChiSquareMeanB chiOf e = none ∧
      fitRatioSigmaMaxPeakMeanB ratioOf e = none := by
  have hflt : goodSignals e = [] := by
    apply List.filter_eq_nil_iff.mpr
    intro w hw
    simp only [decide_eq_true_eq]
    exact Nat.not_le.mpr (h w hw)
  have hgs : goodSig e = 0 := by
    unfold goodSig
    rw [hflt]
    rfl
  have hdiv : ((goodSig e : ℚ)) = 0 := by
    rw [hgs]
    norm_num
  refine ⟨hgs, ?_, ?_, ?_, ?_⟩
  · unfold fitSigmaMeanB divQ
    rw [if_pos hdiv]
  · unfold fitSigmaStdDevSqB
    unfold divQ
    rw [if_pos hdiv]
  · unfold fitChiSquareMeanB divQ
    rw [if_pos hdiv]
  · unfold fitRatioSigmaMaxPeakMeanB divQ
    rw [if_pos hdiv]

/-- Witness for C9 at the concrete one-signal event whose only waveform has
zero points over threshold, with constant abstract fit outputs. -/
theorem modeB_zero_good_nonfinite_witness :
    (∀ w ∈ evC5.fSignal, w.potCount < 2) ∧
      (goodSig evC5 = 0 ∧
        fitSigmaMeanB (fun _ => 1) evC5 = none ∧
        fitSigmaStdDevSqB (fun _ => 1) evC5 = none ∧
        fitChiSquareMeanB (fun _ => 1) evC5 = none ∧
        fitRatioSigmaMaxPeakMeanB (fun _ => 1) evC5 = none) := by
  have h : ∀ w ∈ evC5.fSignal, w.potCount < 2 := by
    intro w hw
    rw [List.mem_singleton.mp hw]
    decide
  exact ⟨h, modeB_zero_good_nonfinite (fun _ => 1) (fun _ => 1) (fun _ => 1) evC5 h⟩

-- C8 ------------------------------------------------------------------------

/-- The addAllPulses summation loop: for each bin i in [0, 512) the value
`a` accumulates `singleSignal->GetData(i)` over every signal of the event
and is appended to the synthetic signal allSig; bins outside the loop's
range are never written. -/
def addAllPulsesData (e : TRestRawSignalEvent) : ℕ → ℚ :=
  fun i => if i < 512 then (e.fSignal.map (fun w => w.data i)).sum else 0

/-- Outcome of the addAllPulses branch: the synthetic summed signal and the
list of histogram-fit invocations the branch performs, in order.  The
branch builds one histogram from allSig and calls Fit on it exactly once,
so the log is the singleton of the summed data. -/
structure ModeCResult where
  allSigData : ℕ → ℚ
  fitCalls : List (ℕ → ℚ)

/-- The addAllPulses (Mode C) processing of one event. -/
def modeC (e : TRestRawSignalEvent) : ModeCResult :=
  { allSigData := addAllPulsesData e, fitCalls := [addAllPulsesData e] }

/-- Modelled from the spec: peakValue — the maximum sample of a waveform
over the 512-bin domain (TRestRawSignal::GetMaxPeakValue is outside the
provided sources). -/
def peakOf (d : ℕ → ℚ) : ℚ :=
  (List.range 512).foldl (fun m i => max m (d i)) (d 0)

/-- A running-max fold only depends on the values at the visited bins. -/
theorem foldl_max_congr (d d' : ℕ → ℚ) :
    ∀ (l : List ℕ) (a : ℚ), (∀ i ∈ l, d i = d' i) →
      l.foldl (fun m i => max m (d i)) a = l.foldl (fun m i => max m (d' i)) a := by
  intro l
  induction l with
  | nil => intro a _; rfl
  | cons x xs ih =>
    intro a h
    simp only [List.foldl_cons]
    rw [h x (List.mem_cons_self x xs)]
    exact ih _ (fun i hi => h i (List.mem_cons_of_mem x hi))

/-- A running-max fold commutes with scaling by a nonnegative constant. -/
theorem foldl_max_smul (K : ℚ) (hK : 0 ≤ K) (v : ℕ → ℚ) :
    ∀ (l : List ℕ) (a : ℚ),
      l.foldl (fun m i => max m (K * v i)) (K * a) =
        K * l.foldl (fun m i => max m (v i)) a := by
  intro l
  induction l with
  | nil => intro a; rfl
  | cons x xs ih =>
    intro a
    simp only [List.foldl_cons]
    rw [← mul_max_of_nonneg a (v x) hK]
    exact ih (max a (v x))

/-- Summing a bin over identical waveforms multiplies the single value by
the waveform count. -/
theorem map_data_sum_const (v : ℕ → ℚ) (i : ℕ) :
    ∀ (l : List TRestRawSignal), (∀ w ∈ l, w.data = v) →
      (l.map (fun w => w.data i)).sum = (l.length : ℚ) * v i := by
  intro l
  induction l with
  | nil => intro _; simp
  | cons x xs ih =>
    intro h
    have hx : x.data = v := h x (List.mem_cons_self x xs)
    rw [List.map_cons, List.sum_cons, ih (fun w hw => h w (List.mem_cons_of_mem x hw)), hx]
    rw [List.length_cons]
    push_cast
    ring

/-- Claim C8: in addAllPulses mode the synthetic waveform's value at each
bin is the bin-wise sum of all waveforms' values at that bin; hence an event
of K identical waveforms has a summed waveform whose peak amplitude is
exactly K times the single-waveform peak; and exactly one fit invocation is
performed for the whole event. -/
theorem modeC_sum_peak_single_fit (e : TRestRawSignalEvent) (v : ℕ → ℚ)
    (h : ∀ w ∈ e.fSignal, w.data = v) :
    (∀ i, i < 512 → (modeC e).allSigData i = (e.fSignal.map (fun w => w.data i)).sum) ∧
      peakOf (modeC e).allSigData = (e.fSignal.length : ℚ) * peakOf v ∧
      (modeC e).fitCalls.length = 1 := by
  have hd : ∀ i, i < 512 →
      (modeC e).allSigData i = (e.fSignal.length : ℚ) * v i := by
    intro i hi
    show addAllPulsesData e i = _
    unfold addAllPulsesData
    rw [if_pos hi, map_data_sum_const v i e.fSignal h]
  refine ⟨?_, ?_, rfl⟩
  · intro i hi
    show addAllPulsesData e i = _
    unfold addAllPulsesData
    rw [if_pos hi]
  · have hK : (0 : ℚ) ≤ (e.fSignal.length : ℚ) := Nat.cast_nonneg _
    unfold peakOf
    rw [hd 0 (by norm_num)]
    rw [foldl_max_congr (modeC e).allSigData (fun i => (e.fSignal.length : ℚ) * v i)
      (List.range 512) _ (fun i hi => hd i (List.mem_range.mp hi))]
    exact foldl_max_smul _ hK v (List.range 512) (v 0)

/-- Single-bin pulse shape shared by the two identical waveforms of the C8
witness event. -/
def vC8 : ℕ → ℚ := fun i => if i = 3 then 2 else 0

/-- Concrete two-identical-waveform event for the C8 witness (distinct IDs,
identical data). -/
def evC8 : TRestRawSignalEvent :=
  ⟨[{ id := 1, data := vC8, integral := 0, baseLine := 0, baseLineSigma := 0,
      maxPeakValue := 0, maxPeakWidth := 0, potCount := 0 },
    { id := 2, data := vC8, integral := 0, baseLine := 0, baseLineSigma := 0,
      maxPeakValue := 0, maxPeakWidth := 0, potCount := 0 }]⟩

/-- Witness for C8 at the concrete event of two identical waveforms. -/
theorem modeC_sum_peak_single_fit_witness :
    (∀ w ∈ evC8.fSignal, w.data = vC8) ∧
      ((∀ i, i < 512 →
          (modeC evC8).allSigData i = (evC8.fSignal.map (fun w => w.data i)).sum) ∧
        peakOf (modeC evC8).allSigData = (evC8.fSignal.length : ℚ) * peakOf vC8 ∧
        (modeC evC8).fitCalls.length = 1) := by
  have h : ∀ w ∈ evC8.fSignal, w.data = vC8 := by
    intro w hw
    rcases List.mem_cons.mp hw with h1 | h1
    · rw [h1]
    · rw [List.mem_singleton.mp h1]
  exact ⟨h, modeC_sum_peak_single_fit evC8 vC8 h⟩
